import Mathlib

/-!
Verification of the Snake game engine in `Codes/Python/snake_game_ai.py`.

The embedding translates the engine state and its operations: `Position`
and `Direction` (the `Enum` of unit deltas), the `SnakeGame` state record,
`generate_food` (with the random source made explicit as a stream of
candidate positions), `move_snake`, `change_direction`, `ai_move`, and the
high-score persistence (`load_high_score`, `save_high_score`, and the
game-over branch of `draw_game`).  Randomness is modelled by
nondeterminism: the reachability relation `Reach` quantifies over the food
positions the random generator may produce, constrained exactly by the
postcondition of the `generate_food` loop.
-/

namespace Snake

/-- A board cell, `Position(row, col)` from the source; equality is
componentwise. -/
structure Position where
  row : Int
  col : Int
deriving DecidableEq

instance : Inhabited Position := ⟨⟨0, 0⟩⟩

/-- Componentwise addition, the `__add__` of `Position`. -/
instance : Add Position := ⟨fun a b => ⟨a.row + b.row, a.col + b.col⟩⟩

theorem Position.add_def (a b : Position) :
    a + b = ⟨a.row + b.row, a.col + b.col⟩ := rfl

/-- The `Direction` enum of the source. -/
inductive Direction where
  | UP
  | DOWN
  | LEFT
  | RIGHT
deriving DecidableEq

/-- The unit delta attached to each enum member: `UP = (-1, 0)`,
`DOWN = (1, 0)`, `LEFT = (0, -1)`, `RIGHT = (0, 1)`. -/
def Direction.delta : Direction → Position
  | .UP => ⟨-1, 0⟩
  | .DOWN => ⟨1, 0⟩
  | .LEFT => ⟨0, -1⟩
  | .RIGHT => ⟨0, 1⟩

/-- The `opposite_directions` table of `change_direction`. -/
def opposite : Direction → Direction
  | .UP => .DOWN
  | .DOWN => .UP
  | .LEFT => .RIGHT
  | .RIGHT => .LEFT

/-- The mutable state of a `SnakeGame` object that the movement engine
touches: grid size, snake segments (head first), current direction, food,
score and the terminal flag. -/
structure GameState where
  width : Int
  height : Int
  snake : List Position
  direction : Direction
  food : Position
  score : Int
  game_over : Bool
deriving DecidableEq

/-- The position a call of `random.randint(0, height-1)` and
`random.randint(0, width-1)` can produce: row in `[0, height)`, column in
`[0, width)`. -/
def InBounds (width height : Int) (p : Position) : Prop :=
  0 ≤ p.row ∧ p.row < height ∧ 0 ≤ p.col ∧ p.col < width

instance (w h : Int) (p : Position) : Decidable (InBounds w h p) := by
  unfold InBounds; infer_instance

/-- `generate_food`: the `while True` loop draws random positions until
one misses the snake.  The random source is made explicit as the list of
candidates it would produce; the result is the first candidate not on the
snake (`none` when the stream runs out, modelling nontermination). -/
def generate_food (snake : List Position) : List Position → Option Position
  | [] => none
  | c :: cs => if c ∈ snake then generate_food snake cs else some c

/-- `change_direction`: adopt the requested direction unless its opposite
is the current one (reverse requests are silently ignored). -/
def change_direction (s : GameState) (new_direction : Direction) : GameState :=
  if opposite new_direction ≠ s.direction then
    { s with direction := new_direction }
  else
    s

/-- The `new_head` computed by `move_snake`: head plus the unit delta of
the current direction. -/
def new_head (s : GameState) : Position :=
  ⟨s.snake.headI.row + s.direction.delta.row,
   s.snake.headI.col + s.direction.delta.col⟩

/-- `move_snake`, with the food position that `generate_food` would
return supplied as the argument `newFood` (it is consulted only on the
eating branch).  No-op when the game is over; wall or self collision sets
the terminal flag; otherwise the new head is prepended and either the
food is eaten (score + 10, fresh food) or the tail is popped. -/
def move_snake (s : GameState) (newFood : Position) : GameState :=
  if s.game_over then s
  else
    let nh := new_head s
    if nh.row < 0 ∨ nh.row ≥ s.height ∨ nh.col < 0 ∨ nh.col ≥ s.width then
      { s with game_over := true }
    else if nh ∈ s.snake then
      { s with game_over := true }
    else
      let snake2 := nh :: s.snake
      if nh = s.food then
        { s with snake := snake2, score := s.score + 10, food := newFood }
      else
        { s with snake := snake2.dropLast }

/-- `reset_game` (and identically `__init__`): a single segment at the
grid center, direction `RIGHT`, score 0, live, with the food position the
random generator produced. -/
def reset_game (width height : Int) (food : Position) : GameState :=
  { width := width
    height := height
    snake := [⟨height / 2, width / 2⟩]
    direction := .RIGHT
    food := food
    score := 0
    game_over := false }

/-- The test `move_snake` performs before eating: live, next head in
bounds and not on the snake, and equal to the food.  Exactly in this case
`generate_food` is consulted for a fresh position. -/
def Eats (s : GameState) : Prop :=
  s.game_over = false ∧ InBounds s.width s.height (new_head s) ∧
    new_head s ∉ s.snake ∧ new_head s = s.food

instance (s : GameState) : Decidable (Eats s) := by
  unfold Eats; infer_instance

/-- The first element of a list attaining the minimal key, the behaviour
of the Python builtin `min(xs, key=...)`: scan left to right keeping the
current best, replacing it only on a strictly smaller key. -/
def minByKey (key : α → Int) : α → List α → α
  | best, [] => best
  | best, x :: xs =>
      if key x < key best then minByKey key x xs else minByKey key best xs

/-- The `directions` dictionary built by `ai_move` for a snake of length
at least 2: the cell adjacent to the head in each direction, written with
the explicit offsets of the source. -/
def ai_candidate (head : Position) : Direction → Position
  | .UP => ⟨head.row - 1, head.col⟩
  | .DOWN => ⟨head.row + 1, head.col⟩
  | .LEFT => ⟨head.row, head.col - 1⟩
  | .RIGHT => ⟨head.row, head.col + 1⟩

/-- The insertion order of the `directions` dictionary, which is also the
iteration order of `directions.items()`. -/
def dirOrder : List Direction := [.UP, .DOWN, .LEFT, .RIGHT]

/-- The safety test of the `ai_move` loop: candidate cell inside the grid
and not on the snake. -/
def ai_safe (s : GameState) (d : Direction) : Bool :=
  let p := ai_candidate s.snake.headI d
  decide (0 ≤ p.row) && decide (p.row < s.height) &&
    decide (0 ≤ p.col) && decide (p.col < s.width) &&
    !(decide (p ∈ s.snake))

/-- The key of the Python `min` call in `ai_move`: Manhattan distance
from the candidate cell of a direction to the food. -/
def ai_key (s : GameState) (d : Direction) : Int :=
  |(ai_candidate s.snake.headI d).row - s.food.row| +
    |(ai_candidate s.snake.headI d).col - s.food.col|

/-- `ai_move`.  For a single-segment snake, an axis-preference rule
(columns first, then rows) feeds `change_direction`.  For a longer snake,
the four adjacent cells are filtered for safety and the safe direction
whose cell minimizes Manhattan distance to the food (first minimum wins,
as with the Python `min`) is passed to `change_direction`; with no safe
direction the state is untouched. -/
def ai_move (s : GameState) : GameState :=
  if s.snake.length = 1 then
    let head := s.snake.headI
    if head.col < s.food.col then change_direction s .RIGHT
    else if head.col > s.food.col then change_direction s .LEFT
    else if head.row < s.food.row then change_direction s .DOWN
    else if head.row > s.food.row then change_direction s .UP
    else s
  else
    let safe_directions := dirOrder.filter (ai_safe s)
    match safe_directions with
    | [] => s
    | x :: xs =>
        let best_direction := minByKey (ai_key s) x xs
        change_direction s best_direction

/-- Modelled from the claim wording, to be compared with `ai_move`: the
reference greedy policy.  Enumerate the four candidate directions in the
order up, down, left, right; discard any whose resulting head (current
head plus the unit delta) is out of bounds or occupies a snake segment;
among the remaining safe directions return the one whose resulting head
minimizes Manhattan distance to the food, the first minimal candidate
winning ties; return `none` when no direction is safe. -/
def greedy_policy (s : GameState) : Option Direction :=
  let result : Direction → Position := fun d => s.snake.headI + d.delta
  let safe := dirOrder.filter fun d =>
    decide (InBounds s.width s.height (result d)) && !(decide (result d ∈ s.snake))
  match safe with
  | [] => none
  | x :: xs =>
      some (minByKey
        (fun d => |(result d).row - s.food.row| + |(result d).col - s.food.col|)
        x xs)

/-- States reachable from `reset_game` by `change_direction` and
`move_snake` calls.  The food argument of a move is constrained exactly
as the `generate_food` loop guarantees: in bounds and off the snake as it
is at generation time (new head already prepended, tail not yet popped);
when the move does not eat, the argument is unconstrained because
`generate_food` is not called. -/
inductive Reach (width height : Int) : GameState → Prop where
  | init (f : Position) :
      InBounds width height f →
      f ∉ [(⟨height / 2, width / 2⟩ : Position)] →
      Reach width height (reset_game width height f)
  | turn (s : GameState) (d : Direction) :
      Reach width height s → Reach width height (change_direction s d)
  | move (s : GameState) (f : Position) :
      Reach width height s →
      (Eats s → InBounds width height f ∧ f ∉ new_head s :: s.snake) →
      Reach width height (move_snake s f)

/-- What opening and parsing `snake_high_score.json` can encounter:
the file is absent (`open` raises `FileNotFoundError`), the file cannot
be read (`open` raises a different `OSError` such as `PermissionError`),
the contents are not valid JSON (`json.load` raises `JSONDecodeError`),
or a JSON object parses, carrying an optional `high_score` field. -/
inductive StoreRead where
  | missing
  | unreadable
  | corrupt
  | valid (hs : Option Int)
deriving DecidableEq

/-- `load_high_score`: the `try` block returns `data.get('high_score', 0)`
on a parsed object and the sole `except FileNotFoundError` handler
returns 0 on a missing file; every other exception propagates out of the
method, modelled as `Except.error` naming the escaping exception. -/
def load_high_score : StoreRead → Except String Int
  | .missing => .ok 0
  | .unreadable => .error "OSError"
  | .corrupt => .error "JSONDecodeError"
  | .valid hs => .ok (hs.getD 0)

/-- `save_high_score`: sets the in-memory `high_score` to the given score
and writes the object with that `high_score` field to the store.  The
result pairs the new in-memory value with the new store contents. -/
def save_high_score (score : Int) : Int × StoreRead :=
  (score, .valid (some score))

/-- The game-over branch of `draw_game`: when the final score strictly
exceeds the in-memory high score, `save_high_score(score)` runs;
otherwise neither the in-memory value nor the store changes. -/
def draw_game_end (score high_score : Int) (store : StoreRead) :
    Int × StoreRead :=
  if score > high_score then save_high_score score else (high_score, store)

/-- A live single-segment state on which the two autoplay policies
disagree: code prefers the column axis, the reference policy prefers the
first minimal candidate in enumeration order. -/
def cexState : GameState := ⟨20, 15, [⟨2, 2⟩], .RIGHT, ⟨4, 4⟩, 0, false⟩

/-- A live two-segment state used to instantiate the autoplay theorem. -/
def pairState : GameState := ⟨20, 15, [⟨2, 2⟩, ⟨2, 1⟩], .RIGHT, ⟨2, 5⟩, 0, false⟩

/-- A live state about to eat: head at (2,3) moving right onto food at
(2,4) on a 5 by 5 grid. -/
def eatState : GameState := ⟨5, 5, [⟨2, 3⟩], .RIGHT, ⟨2, 4⟩, 0, false⟩

/-- A live single-segment state at the origin facing up, about to hit
the wall at row -1. -/
def wallState : GameState := ⟨20, 15, [⟨0, 0⟩], .UP, ⟨5, 5⟩, 0, false⟩

/-- A state whose terminal flag is already set. -/
def termState : GameState := ⟨20, 15, [⟨3, 3⟩], .RIGHT, ⟨5, 5⟩, 40, true⟩

/-- A live state whose current direction is right. -/
def rightState : GameState := ⟨20, 15, [⟨7, 10⟩], .RIGHT, ⟨0, 0⟩, 0, false⟩

theorem opposite_opposite (d : Direction) : opposite (opposite d) = d := by
  cases d <;> rfl

theorem change_direction_eq (s : GameState) (d : Direction) :
    change_direction s d =
      if d = opposite s.direction then s else { s with direction := d } := by
  by_cases hd : d = opposite s.direction
  · have h1 : opposite d = s.direction := by rw [hd, opposite_opposite]
    simp [change_direction, h1, hd, opposite_opposite]
  · have h1 : opposite d ≠ s.direction := fun h => hd (by rw [← h, opposite_opposite])
    simp [change_direction, h1, hd]

/-- C5: `change_direction` adopts the requested direction unless the
request is the exact opposite of the current direction, in which case the
whole state is left unchanged (the request is silently ignored). -/
theorem change_direction_reverse_ignored (s : GameState) (d : Direction) :
    (d = opposite s.direction → change_direction s d = s) ∧
    (d ≠ opposite s.direction →
      (change_direction s d).direction = d ∧
      change_direction s d = { s with direction := d }) := by
  rw [change_direction_eq]
  by_cases hd : d = opposite s.direction
  · simp [hd]
  · simp [hd]

/-- Witness for C5: with current direction right, a request for left is
ignored and the state is unchanged. -/
theorem change_direction_reverse_ignored_witness :
    change_direction rightState .LEFT = rightState :=
  (change_direction_reverse_ignored rightState .LEFT).1 (by decide)

/-- C4: `move_snake` on a state whose terminal flag is set returns the
state unchanged in every field. -/
theorem move_snake_terminal_noop (s : GameState) (f : Position)
    (h : s.game_over = true) : move_snake s f = s := by
  simp [move_snake, h]

/-- Witness for C4: a concrete terminal state is returned unchanged. -/
theorem move_snake_terminal_noop_witness :
    move_snake termState ⟨1, 1⟩ = termState :=
  move_snake_terminal_noop termState ⟨1, 1⟩ rfl

/-- C6: on a live state whose next head is out of bounds, `move_snake`
sets the terminal flag and changes nothing else. -/
theorem move_snake_wall_collision (s : GameState) (f : Position)
    (hlive : s.game_over = false)
    (hout : ¬ InBounds s.width s.height (new_head s)) :
    move_snake s f = { s with game_over := true } := by
  have hgo : ¬ (s.game_over = true) := by simp [hlive]
  have hcond : (new_head s).row < 0 ∨ (new_head s).row ≥ s.height ∨
      (new_head s).col < 0 ∨ (new_head s).col ≥ s.width := by
    unfold InBounds at hout; omega
  simp only [move_snake]
  rw [if_neg hgo, if_pos hcond]

/-- Witness for C6: a length-1 snake at the origin facing up becomes
terminal with all other fields untouched, since row -1 is out of
bounds. -/
theorem move_snake_wall_collision_witness :
    move_snake wallState ⟨9, 9⟩ = { wallState with game_over := true } :=
  move_snake_wall_collision wallState ⟨9, 9⟩ rfl (by decide)

/-- C3: on a live state whose next head is in bounds and off the snake,
one `move_snake` call grows the snake by one segment and the score by 10
when the next head is the food, and leaves length and score unchanged
otherwise. -/
theorem move_snake_food_effect (s : GameState) (f : Position)
    (hlive : s.game_over = false)
    (hin : InBounds s.width s.height (new_head s))
    (hmem : new_head s ∉ s.snake) (hne : s.snake ≠ []) :
    (new_head s = s.food →
      (move_snake s f).snake.length = s.snake.length + 1 ∧
      (move_snake s f).score = s.score + 10) ∧
    (new_head s ≠ s.food →
      (move_snake s f).snake.length = s.snake.length ∧
      (move_snake s f).score = s.score) := by
  have hgo : ¬ (s.game_over = true) := by simp [hlive]
  have hcond : ¬ ((new_head s).row < 0 ∨ (new_head s).row ≥ s.height ∨
      (new_head s).col < 0 ∨ (new_head s).col ≥ s.width) := by
    unfold InBounds at hin; omega
  constructor
  · intro hfood
    simp only [move_snake]
    rw [if_neg hgo, if_neg hcond, if_neg hmem, if_pos hfood]
    simp
  · intro hfood
    simp only [move_snake]
    rw [if_neg hgo, if_neg hcond, if_neg hmem, if_neg hfood]
    refine ⟨?_, rfl⟩
    simp [List.length_dropLast]

/-- Witness for C3: the eating step on the 5 by 5 scenario state grows
the snake to length 2 and the score to 10. -/
theorem move_snake_food_effect_witness :
    (move_snake eatState ⟨0, 0⟩).snake.length = eatState.snake.length + 1 ∧
    (move_snake eatState ⟨0, 0⟩).score = eatState.score + 10 :=
  (move_snake_food_effect eatState ⟨0, 0⟩ rfl (by decide) (by decide)
    (by decide)).1 (by decide)

/-- C7: whenever the free-cell precondition holds, any position returned
by the `generate_food` loop is disjoint from every snake segment. -/
theorem generate_food_disjoint (w h : Int) (snake cands : List Position)
    (p : Position) (hfree : ∃ q, InBounds w h q ∧ q ∉ snake)
    (hres : generate_food snake cands = some p) : p ∉ snake := by
  induction cands with
  | nil => simp [generate_food] at hres
  | cons c cs ih =>
      by_cases hc : c ∈ snake
      · exact ih (by simpa [generate_food, hc] using hres)
      · have hcp : c = p := by simpa [generate_food, hc] using hres
        exact hcp ▸ hc

/-- Witness for C7: with the snake on the origin and a candidate stream
that first hits the snake, the returned food (1,1) avoids the snake. -/
theorem generate_food_disjoint_witness :
    (⟨1, 1⟩ : Position) ∉ [(⟨0, 0⟩ : Position)] :=
  generate_food_disjoint 20 15 [⟨0, 0⟩] [⟨0, 0⟩, ⟨1, 1⟩] ⟨1, 1⟩
    ⟨⟨1, 1⟩, by decide, by decide⟩ (by decide)

/-- C8: at game end the store is overwritten exactly when the final
score strictly exceeds the held high score, and is untouched otherwise;
in particular an empty store, a session ending at 30 and a later session
ending at 20 leave the store holding 30. -/
theorem high_score_persist :
    (∀ score hs store, score > hs →
      draw_game_end score hs store = (score, .valid (some score))) ∧
    (∀ score hs store, ¬ score > hs →
      draw_game_end score hs store = (hs, store)) ∧
    (load_high_score .missing = .ok 0 ∧
      draw_game_end 30 0 .missing = (30, .valid (some 30)) ∧
      load_high_score (.valid (some 30)) = .ok 30 ∧
      draw_game_end 20 30 (.valid (some 30)) = (30, .valid (some 30))) := by
  refine ⟨?_, ?_, rfl, ?_, rfl, ?_⟩
  · intro score hs store h
    simp [draw_game_end, save_high_score, h]
  · intro score hs store h
    simp [draw_game_end, h]
  · decide
  · decide

/-- Witness for C8: a session ending at 25 against a held high score of
10 writes 25 to the store. -/
theorem high_score_persist_witness :
    draw_game_end 25 10 .missing = (25, .valid (some 25)) :=
  high_score_persist.1 25 10 .missing (by norm_num)

/-- Counterexample to C9: a present but unparseable store makes
`load_high_score` propagate the JSON error instead of returning 0. -/
theorem load_high_score_corrupt_cex :
    load_high_score .corrupt = .error "JSONDecodeError" ∧
    load_high_score .corrupt ≠ .ok 0 :=
  ⟨rfl, fun h => Except.noConfusion h⟩

/-- C9 amended: `load_high_score` returns 0 when the store file is
absent or when a parsed object lacks the high-score field, returns a
stored value verbatim, but propagates an exception when the file is
unreadable or its contents fail to parse. -/
theorem load_high_score_cases :
    load_high_score .missing = .ok 0 ∧
    load_high_score (.valid none) = .ok 0 ∧
    (∀ v : Int, load_high_score (.valid (some v)) = .ok v) ∧
    load_high_score .corrupt = .error "JSONDecodeError" ∧
    load_high_score .unreadable = .error "OSError" :=
  ⟨rfl, rfl, fun _ => rfl, rfl, rfl⟩

theorem reach_invariant {W H : Int} {s : GameState} (h : Reach W H s) :
    s.snake ≠ [] ∧ s.snake.Nodup ∧
      s.score = 10 * ((s.snake.length : Int) - 1) := by
  induction h with
  | init f hb hf => simp [reset_game]
  | turn s d _ ih =>
      rw [change_direction_eq]
      split_ifs <;> simpa using ih
  | move s f _ hfood ih =>
      obtain ⟨hne, hnd, hsc⟩ := ih
      simp only [move_snake]
      by_cases hgo : s.game_over = true
      · rw [if_pos hgo]
        exact ⟨hne, hnd, hsc⟩
      · rw [if_neg hgo]
        by_cases hwall : (new_head s).row < 0 ∨ (new_head s).row ≥ s.height ∨
            (new_head s).col < 0 ∨ (new_head s).col ≥ s.width
        · rw [if_pos hwall]; exact ⟨hne, hnd, hsc⟩
        · rw [if_neg hwall]
          by_cases hself : new_head s ∈ s.snake
          · rw [if_pos hself]; exact ⟨hne, hnd, hsc⟩
          · rw [if_neg hself]
            by_cases hfd : new_head s = s.food
            · rw [if_pos hfd]
              refine ⟨by simp, ?_, ?_⟩
              · show (new_head s :: s.snake).Nodup
                exact List.nodup_cons.mpr ⟨hself, hnd⟩
              · show s.score + 10 = 10 * (((new_head s :: s.snake).length : Int) - 1)
                rw [List.length_cons]
                push_cast
                omega
            · rw [if_neg hfd]
              refine ⟨?_, ?_, ?_⟩
              · show (new_head s :: s.snake).dropLast ≠ []
                rw [← List.length_pos, List.length_dropLast, List.length_cons]
                simpa [List.length_pos] using hne
              · show ((new_head s :: s.snake).dropLast).Nodup
                exact (List.dropLast_sublist _).nodup
                  (List.nodup_cons.mpr ⟨hself, hnd⟩)
              · show s.score =
                  10 * ((((new_head s :: s.snake).dropLast).length : Int) - 1)
                rw [List.length_dropLast, List.length_cons, Nat.add_sub_cancel]
                exact hsc

/-- C1: in every state reachable from reset by direction changes and
moves, the segments of the snake are pairwise distinct while the game is
live. -/
theorem snake_segments_distinct (W H : Int) (s : GameState)
    (h : Reach W H s) (hlive : s.game_over = false) : s.snake.Nodup :=
  (reach_invariant h).2.1

/-- Witness for C1: the freshly reset 20 by 15 game is live and its
single-segment snake has distinct segments. -/
theorem snake_segments_distinct_witness :
    (reset_game 20 15 ⟨0, 0⟩).snake.Nodup :=
  snake_segments_distinct 20 15 _ (.init ⟨0, 0⟩ (by decide) (by decide)) rfl

/-- C10: in every reachable state the score equals ten times the number
of segments the snake has gained since reset. -/
theorem score_ten_per_segment (W H : Int) (s : GameState)
    (h : Reach W H s) :
    s.score = 10 * ((s.snake.length : Int) - 1) :=
  (reach_invariant h).2.2

/-- Witness for C10: the freshly reset game has score 0 and one
segment. -/
theorem score_ten_per_segment_witness :
    (reset_game 20 15 ⟨3, 4⟩).score =
      10 * (((reset_game 20 15 ⟨3, 4⟩).snake.length : Int) - 1) :=
  score_ten_per_segment 20 15 _ (.init ⟨3, 4⟩ (by decide) (by decide))

theorem minByKey_mem {α : Type} (key : α → Int) (b : α) (l : List α) :
    minByKey key b l ∈ b :: l := by
  induction l generalizing b with
  | nil => simp [minByKey]
  | cons x xs ih =>
      unfold minByKey
      split_ifs with h
      · have := ih x
        simp [List.mem_cons] at this ⊢
        tauto
      · have := ih b
        simp [List.mem_cons] at this ⊢
        tauto

theorem minByKey_le {α : Type} (key : α → Int) (b : α) (l : List α) :
    ∀ y ∈ b :: l, key (minByKey key b l) ≤ key y := by
  induction l generalizing b with
  | nil =>
      intro y hy
      simp at hy
      subst hy
      simp [minByKey]
  | cons x xs ih =>
      intro y hy
      simp only [List.mem_cons] at hy
      unfold minByKey
      split_ifs with h
      · rcases hy with hy | hy | hy
        · rw [hy]
          exact le_trans (ih x x (by simp)) h.le
        · rw [hy]
          exact ih x x (by simp)
        · exact ih x y (by simp [hy])
      · push_neg at h
        rcases hy with hy | hy | hy
        · rw [hy]
          exact ih b b (by simp)
        · rw [hy]
          exact le_trans (ih b b (by simp)) h
        · exact ih b y (by simp [hy])

theorem ai_candidate_eq (hd : Position) (d : Direction) :
    ai_candidate hd d = hd + d.delta := by
  cases d <;>
    simp [ai_candidate, Direction.delta, Position.add_def,
      Position.mk.injEq] <;>
    omega

theorem ai_safe_eq (s : GameState) (d : Direction) :
    ai_safe s d =
      (decide (InBounds s.width s.height (s.snake.headI + d.delta)) &&
        !(decide (s.snake.headI + d.delta ∈ s.snake))) := by
  have hc := ai_candidate_eq s.snake.headI d
  rw [Bool.eq_iff_iff]
  simp [ai_safe, InBounds, hc]
  tauto

theorem greedy_policy_eq_code_shape (s : GameState) :
    greedy_policy s =
      match dirOrder.filter (ai_safe s) with
      | [] => none
      | x :: xs => some (minByKey (ai_key s) x xs) := by
  simp only [greedy_policy]
  have hf : (dirOrder.filter fun d =>
      decide (InBounds s.width s.height (s.snake.headI + d.delta)) &&
        !(decide (s.snake.headI + d.delta ∈ s.snake))) =
      dirOrder.filter (ai_safe s) :=
    List.filter_congr (fun d _ => (ai_safe_eq s d).symm)
  rw [hf]
  have hk : (fun d => |(s.snake.headI + d.delta).row - s.food.row| +
      |(s.snake.headI + d.delta).col - s.food.col|) = ai_key s :=
    funext fun d => by simp [ai_key, ai_candidate_eq]
  rw [hk]

theorem greedy_policy_none (s : GameState)
    (hfl : dirOrder.filter (ai_safe s) = []) : greedy_policy s = none := by
  rw [greedy_policy_eq_code_shape s, hfl]

theorem greedy_policy_some (s : GameState) (x : Direction)
    (xs : List Direction) (hfl : dirOrder.filter (ai_safe s) = x :: xs) :
    greedy_policy s = some (minByKey (ai_key s) x xs) := by
  rw [greedy_policy_eq_code_shape s, hfl]

theorem ai_move_long (s : GameState) (hlen : s.snake.length ≠ 1) :
    ai_move s =
      match dirOrder.filter (ai_safe s) with
      | [] => s
      | x :: xs => change_direction s (minByKey (ai_key s) x xs) := by
  unfold ai_move
  rw [if_neg hlen]

theorem ai_move_long_nil (s : GameState) (hlen : s.snake.length ≠ 1)
    (hfl : dirOrder.filter (ai_safe s) = []) : ai_move s = s := by
  rw [ai_move_long s hlen, hfl]

theorem ai_move_long_cons (s : GameState) (hlen : s.snake.length ≠ 1)
    (x : Direction) (xs : List Direction)
    (hfl : dirOrder.filter (ai_safe s) = x :: xs) :
    ai_move s = change_direction s (minByKey (ai_key s) x xs) := by
  rw [ai_move_long s hlen, hfl]

/-- Counterexample to C2: on the live single-segment state with head
(2,2) and food (4,4), `ai_move` turns right (column preference of the
single-segment branch) while the reference greedy policy returns down
(the first direction attaining the minimal Manhattan distance in the
enumeration order up, down, left, right). -/
theorem ai_move_single_segment_cex :
    cexState.game_over = false ∧
    greedy_policy cexState = some .DOWN ∧
    (ai_move cexState).direction = .RIGHT ∧
    ¬ (ai_move cexState).direction =
        (match greedy_policy cexState with
         | some d => d
         | none => cexState.direction) := by
  decide

/-- C2 amended: for every live state whose snake has at least two
segments, `ai_move` computes exactly the reference greedy candidate and
passes it through `change_direction`: with no safe direction the state
is unchanged, and otherwise the candidate is safe, its resulting
Manhattan distance to the food is at most that of every safe direction,
and it becomes the active direction unless it is the exact opposite of
the current one, in which case the direction stays. -/
theorem ai_move_greedy_amended (s : GameState) (hlive : s.game_over = false)
    (hlen : 2 ≤ s.snake.length) :
    (greedy_policy s = none → ai_move s = s) ∧
    (∀ d, greedy_policy s = some d →
      ai_move s = change_direction s d ∧
      (ai_move s).direction =
        (if d = opposite s.direction then s.direction else d) ∧
      ai_safe s d = true ∧
      (∀ e, ai_safe s e = true →
        |(s.snake.headI + d.delta).row - s.food.row| +
          |(s.snake.headI + d.delta).col - s.food.col| ≤
        |(s.snake.headI + e.delta).row - s.food.row| +
          |(s.snake.headI + e.delta).col - s.food.col|)) := by
  have hlen1 : s.snake.length ≠ 1 := by omega
  cases hfl : dirOrder.filter (ai_safe s) with
  | nil =>
      constructor
      · intro _
        exact ai_move_long_nil s hlen1 hfl
      · intro d hd
        rw [greedy_policy_none s hfl] at hd
        exact absurd hd (by simp)
  | cons x xs =>
      have hmove := ai_move_long_cons s hlen1 x xs hfl
      constructor
      · intro hnone
        rw [greedy_policy_some s x xs hfl] at hnone
        exact absurd hnone (by simp)
      · intro d hd
        rw [greedy_policy_some s x xs hfl] at hd
        have hdd : minByKey (ai_key s) x xs = d := by simpa using hd
        refine ⟨by rw [hmove, hdd], ?_, ?_, ?_⟩
        · rw [hmove, hdd, change_direction_eq]
          split_ifs with h <;> simp
        · have hmem := minByKey_mem (ai_key s) x xs
          rw [← hfl] at hmem
          have hsafe := (List.mem_filter.mp hmem).2
          rw [hdd] at hsafe
          exact hsafe
        · intro e he
          have hedir : e ∈ dirOrder := by cases e <;> simp [dirOrder]
          have hef : e ∈ x :: xs := by
            rw [← hfl]
            exact List.mem_filter.mpr ⟨hedir, he⟩
          have hle := minByKey_le (ai_key s) x xs e hef
          rw [hdd] at hle
          simpa [ai_key, ai_candidate_eq] using hle

/-- Witness for the amended C2: on the live two-segment state with head
(2,2), tail (2,1) and food (2,5), the greedy candidate is right and
`ai_move` adopts it. -/
theorem ai_move_greedy_amended_witness :
    ai_move pairState = change_direction pairState .RIGHT :=
  ((ai_move_greedy_amended pairState rfl (by decide)).2 .RIGHT (by decide)).1

end Snake
